import Mathlib

/-!
Verification development for the MyDashboard repository.

Part 1 models the sound-asset selection engine described in the repository's
planning/spec documents (the engine itself is not implemented in the code,
so the definitions below are modelled from the spec, §3 and §4.1).
Part 2 embeds the XOR/Base64 cipher of
`app-dashboard/server/src/services/encryption.ts`.
Part 3 embeds `truncateText` of `app-dashboard/client/src/utils/helpers.ts`.
Part 4 embeds the PUT branch of the per-idea API handler.

JS strings are modelled as lists of UTF-16 code units (`List Nat`) where the
byte-level view matters (the cipher), and as `String`/`List Char` elsewhere.
-/

namespace SoundEngine

/-- Modelled from the spec: the closed category set of §3
(intro, background, midtro, outro, ad_intro, ad_outro). -/
inductive Category where
  | intro
  | background
  | midtro
  | outro
  | ad_intro
  | ad_outro
deriving DecidableEq, Repr

/-- Modelled from the spec: the time-of-day enumeration of §3
(morning, afternoon, evening, night). -/
inductive TimeOfDay where
  | morning
  | afternoon
  | evening
  | night
deriving DecidableEq, Repr

/-- Modelled from the spec: the `conditions` record of a SoundAsset (§3);
every axis is independently optional, `none` meaning "no restriction". -/
structure Conditions where
  maxDurationSeconds : Option Int
  minDurationSeconds : Option Int
  sportIds : Option (List Int)
  leagueIds : Option (List Int)
  teamIds : Option (List Int)
  timeOfDay : Option TimeOfDay
  dayOfWeek : Option (List Nat)
deriving DecidableEq, Repr

/-- Modelled from the spec: a SoundAsset candidate (§3); fields the engine
never reads (file reference, timestamps) are represented by `id` alone. -/
structure SoundAsset where
  id : Nat
  category : Category
  conditions : Conditions
  priority : Int
  isActive : Bool
deriving DecidableEq, Repr

/-- Modelled from the spec: the PlaybackContext selection query (§3);
`sportId`, `leagueId`, `teamId` are nullable single identifiers. -/
structure PlaybackContext where
  durationSeconds : Int
  sportId : Option Int
  leagueId : Option Int
  teamId : Option Int
  timeOfDay : TimeOfDay
  dayOfWeek : Nat
deriving DecidableEq, Repr

/-- Modelled from the spec: the fully-null conditions record
(the "universal fallback" shape of §3). -/
def nullConditions : Conditions :=
  { maxDurationSeconds := none, minDurationSeconds := none,
    sportIds := none, leagueIds := none, teamIds := none,
    timeOfDay := none, dayOfWeek := none }

/-- Modelled from the spec: duration upper bound axis (§4.1): if
`maxDurationSeconds` is set, require `context.durationSeconds <= max`. -/
def durationMaxOk (ctx : PlaybackContext) (c : Conditions) : Bool :=
  match c.maxDurationSeconds with
  | none => true
  | some m => decide (ctx.durationSeconds ≤ m)

/-- Modelled from the spec: duration lower bound axis (§4.1): if
`minDurationSeconds` is set, require `context.durationSeconds >= min`. -/
def durationMinOk (ctx : PlaybackContext) (c : Conditions) : Bool :=
  match c.minDurationSeconds with
  | none => true
  | some m => decide (m ≤ ctx.durationSeconds)

/-- Modelled from the spec: a membership axis (§4.1): if the asset's set is
non-empty, require the context's corresponding id to be present in it; a
null or empty set means "any", and a null context id cannot satisfy a
non-empty restriction (§3 / §9 conservative default). -/
def membershipOk (cond : Option (List Int)) (ctxId : Option Int) : Bool :=
  match cond with
  | none => true
  | some l =>
    l.isEmpty ||
      (match ctxId with
       | none => false
       | some i => l.contains i)

/-- Modelled from the spec: time-of-day axis (§4.1): if set, require exact
equality with `context.timeOfDay`. -/
def timeOfDayOk (ctx : PlaybackContext) (c : Conditions) : Bool :=
  match c.timeOfDay with
  | none => true
  | some t => decide (ctx.timeOfDay = t)

/-- Modelled from the spec: day-of-week axis (§4.1): if set, require
`context.dayOfWeek` to be a member. -/
def dayOfWeekOk (ctx : PlaybackContext) (c : Conditions) : Bool :=
  match c.dayOfWeek with
  | none => true
  | some ds => ds.contains ctx.dayOfWeek

/-- Modelled from the spec: the eligibility filter of §4.1 Step 1: an asset
survives exactly when `isActive` is true and every present condition axis
matches the context. -/
def isEligible (ctx : PlaybackContext) (a : SoundAsset) : Bool :=
  a.isActive
    && durationMaxOk ctx a.conditions
    && durationMinOk ctx a.conditions
    && membershipOk a.conditions.sportIds ctx.sportId
    && membershipOk a.conditions.leagueIds ctx.leagueId
    && membershipOk a.conditions.teamIds ctx.teamId
    && timeOfDayOk ctx a.conditions
    && dayOfWeekOk ctx a.conditions

/-- Modelled from the spec: the maximum `priority` among a non-empty list of
surviving candidates (§4.1 Step 2), head given separately. -/
def maxPrio (e : SoundAsset) (es : List SoundAsset) : Int :=
  es.foldl (fun m a => max m a.priority) e.priority

/-- Modelled from the spec: the subset of surviving candidates sharing the
maximum `priority` value (§4.1 Step 2). -/
def topCandidates (e : SoundAsset) (es : List SoundAsset) : List SoundAsset :=
  (e :: es).filter (fun a => a.priority == maxPrio e es)

/-- Modelled from the spec: `selectAsset(category, context, candidates)` of
§4.1 with the injectable randomness source determinised to a natural number
`rand`: filter by eligibility, keep the maximum-priority subset, and pick
index `rand % size` within it (uniform tie-break, §4.1 Step 3). -/
def selectAsset (_category : Category) (ctx : PlaybackContext)
    (candidates : List SoundAsset) (rand : Nat) : Option SoundAsset :=
  match candidates.filter (fun a => isEligible ctx a) with
  | [] => none
  | e :: es => (topCandidates e es)[rand % (topCandidates e es).length]?

/-- Normalisation of one membership axis: the empty set and the null value
both mean "no restriction on this axis" (spec §3 and §9), so the empty set
is rewritten to null. -/
def normSet (o : Option (List Int)) : Option (List Int) :=
  match o with
  | some [] => none
  | x => x

/-- Normalisation of a conditions record on the three membership axes. -/
def normConds (c : Conditions) : Conditions :=
  { c with
    sportIds := normSet c.sportIds
    leagueIds := normSet c.leagueIds
    teamIds := normSet c.teamIds }

/-- Normalisation of an asset on the three membership axes. -/
def normAsset (a : SoundAsset) : SoundAsset :=
  { a with conditions := normConds a.conditions }

/-! Concrete fixtures used by the witness theorems. -/

/-- A concrete playback context: a 60-second briefing about sport 1,
morning, Wednesday. -/
def ctx0 : PlaybackContext :=
  { durationSeconds := 60, sportId := some 1, leagueId := none,
    teamId := none, timeOfDay := TimeOfDay.morning, dayOfWeek := 3 }

/-- A concrete universal-fallback asset: active, no conditions, priority 0. -/
def fallback0 : SoundAsset :=
  { id := 0, category := Category.intro, conditions := nullConditions,
    priority := 0, isActive := true }

/-- A concrete asset restricted to sport 2, hence ineligible under `ctx0`. -/
def blocked0 : SoundAsset :=
  { id := 1, category := Category.intro,
    conditions := { nullConditions with sportIds := some ([2] : List Int) },
    priority := 5, isActive := true }

/-- A concrete asset whose membership axes are all the empty set. -/
def emptySets0 : SoundAsset :=
  { id := 2, category := Category.intro,
    conditions := { nullConditions with
                    sportIds := some ([] : List Int)
                    leagueIds := some ([] : List Int)
                    teamIds := some ([] : List Int) },
    priority := 2, isActive := true }

/-- A concrete playback context identical to `ctx0` but with no sport id. -/
def ctxNoSport0 : PlaybackContext := { ctx0 with sportId := none }

end SoundEngine

namespace Encryption

/-!
Embedding of `app-dashboard/server/src/services/encryption.ts`.

JS strings are modelled as lists of UTF-16 code units (`List Nat`). For
inputs whose code units are all below 128, the UTF-8 encoding performed by
`Buffer.from(result)` maps each unit to the single byte with the same value,
so the byte string handed to Base64 is the code-unit list itself; the XOR
key is ASCII, so the XOR of such an input stays below 128. The Base64
encoder/decoder below is the standard RFC 4648 coder used by Node's
`Buffer.toString('base64')` / `Buffer.from(-, 'base64')`.
-/

/-- The standard Base64 alphabet. -/
def b64alphabet : List Char :=
  "ABCDEFGHIJKLMNOPQRSTUVWXYZabcdefghijklmnopqrstuvwxyz0123456789+/".toList

/-- Character of a six-bit group. -/
def b64char (n : Nat) : Char := b64alphabet.getD n 'A'

/-- Six-bit value of an alphabet character. -/
def b64index (c : Char) : Nat := b64alphabet.indexOf c

/-- Base64 encoding of a byte list, including `=` padding
(`Buffer.toString('base64')`). -/
def encodeB64 : List Nat → List Char
  | [] => []
  | [a] => [b64char (a / 4), b64char (a % 4 * 16), '=', '=']
  | [a, b] => [b64char (a / 4), b64char (a % 4 * 16 + b / 16),
      b64char (b % 16 * 4), '=']
  | a :: b :: c :: rest =>
      b64char (a / 4) :: b64char (a % 4 * 16 + b / 16) ::
        b64char (b % 16 * 4 + c / 64) :: b64char (c % 64) :: encodeB64 rest

/-- Base64 decoding of a well-formed Base64 text
(`Buffer.from(-, 'base64')` on the encoder's output). -/
def decodeB64 : List Char → List Nat
  | c1 :: c2 :: c3 :: c4 :: rest =>
      if c3 = '=' then [b64index c1 * 4 + b64index c2 / 16]
      else if c4 = '=' then
        [b64index c1 * 4 + b64index c2 / 16,
          b64index c2 % 16 * 16 + b64index c3 / 4]
      else
        (b64index c1 * 4 + b64index c2 / 16) ::
          (b64index c2 % 16 * 16 + b64index c3 / 4) ::
          (b64index c3 % 4 * 64 + b64index c4) :: decodeB64 rest
  | _ => []

/-- Code units of the hard-coded key `app-dashboard-secret-key-2024`. -/
def ENCRYPTION_KEY : List Nat :=
  [97, 112, 112, 45, 100, 97, 115, 104, 98, 111, 97, 114, 100, 45, 115,
   101, 99, 114, 101, 116, 45, 107, 101, 121, 45, 50, 48, 50, 52]

/-- The XOR loop of `encrypt`/`decrypt`, starting at position `i`:
`value.charCodeAt(i) ^ ENCRYPTION_KEY.charCodeAt(i % ENCRYPTION_KEY.length)`. -/
def xorKeyFrom (i : Nat) : List Nat → List Nat
  | [] => []
  | a :: rest =>
      (a ^^^ ENCRYPTION_KEY.getD (i % ENCRYPTION_KEY.length) 0) ::
        xorKeyFrom (i + 1) rest

/-- The XOR cipher applied from position 0. -/
def xorKey (l : List Nat) : List Nat := xorKeyFrom 0 l

/-- `encrypt`: empty input short-circuits to the empty string; otherwise
XOR with the key, then Base64-encode. -/
def encrypt (value : List Nat) : List Char :=
  if value = [] then [] else encodeB64 (xorKey value)

/-- `decrypt`: empty input short-circuits to the empty string; otherwise
Base64-decode, then XOR with the key. -/
def decrypt (encrypted : List Char) : List Nat :=
  if encrypted = [] then [] else xorKey (decodeB64 encrypted)

end Encryption

namespace Helpers

/-- Embedding of `truncateText` from
`app-dashboard/client/src/utils/helpers.ts`: text as a list of characters;
`substring(0, maxLength - 3)` clamps a negative end index to 0, which
`Int.toNat` mirrors. -/
def truncateText (text : List Char) (maxLength : Int) : List Char :=
  if (text.length : Int) ≤ maxLength then text
  else text.take (maxLength - 3).toNat ++ ['.', '.', '.']

end Helpers

namespace IdeasApi

/-- The status string checked by the PUT branch. -/
def statusCompleted : String := "completed"

/-- The empty string (a falsy JS value). -/
def emptyString : String := ""

/-- An idea record as stored in `db.ideas` (`AppIdea` in `api/db.ts`);
optional fields are `Option`, `none` standing for `undefined`. -/
structure AppIdea where
  id : String
  app_id : String
  title : String
  description : Option String
  priority : String
  status : String
  created_at : String
  completed_at : Option String
deriving DecidableEq, Repr

/-- The PUT request body fields the handler reads; `none` stands for an
absent (`undefined`) field. -/
structure PutBody where
  title : Option String
  description : Option String
  priority : Option String
  status : Option String
deriving DecidableEq, Repr

/-- JS truthiness of an optional string: `undefined` and `''` are falsy. -/
def jsTruthy (o : Option String) : Bool :=
  match o with
  | none => false
  | some s => !(s == "")

/-- `x || y` on an optional string versus a default. -/
def jsOr (o : Option String) (dflt : String) : String :=
  match o with
  | none => dflt
  | some s => if s = "" then dflt else s

/-- The PUT branch of the per-idea handler: the `completedAt` computation
and the record update, with `now` the current timestamp string. -/
def putUpdate (idea : AppIdea) (body : PutBody) (now : String) : AppIdea :=
  let completedAt :=
    if body.status = some statusCompleted ∧ idea.status ≠ statusCompleted
    then some now
    else if jsTruthy body.status = true ∧ body.status ≠ some statusCompleted
    then none
    else idea.completed_at
  { idea with
    title := jsOr body.title idea.title
    description := match body.description with
      | some d => some d
      | none => idea.description
    priority := jsOr body.priority idea.priority
    status := jsOr body.status idea.status
    completed_at := completedAt }

/-- The invariant: `completed_at` is set exactly when the status is
`completed`. -/
def completedInv (i : AppIdea) : Prop :=
  i.completed_at ≠ none ↔ i.status = statusCompleted

instance (i : AppIdea) : Decidable (completedInv i) := by
  unfold completedInv
  infer_instance

/-- A concrete completed idea with a set completion timestamp. -/
def ideaDone0 : AppIdea :=
  { id := "i1", app_id := "a1", title := "t", description := none,
    priority := "low", status := statusCompleted,
    created_at := "2024-01-01", completed_at := some ("2024-01-02") }

/-- A concrete pending idea. -/
def ideaPending0 : AppIdea :=
  { id := "i2", app_id := "a1", title := "u", description := none,
    priority := "high", status := "pending",
    created_at := "2024-01-03", completed_at := none }

/-- A PUT body requesting the empty-string status. -/
def bodyEmptyStatus0 : PutBody :=
  { title := none, description := none, priority := none,
    status := some emptyString }

/-- A PUT body requesting the completed status. -/
def bodyComplete0 : PutBody :=
  { title := none, description := none, priority := none,
    status := some statusCompleted }

/-- A concrete request timestamp. -/
def nowStamp0 : String := "2024-02-03T00:00:00Z"

end IdeasApi

namespace SoundEngine

/-! Helper lemmas about priority maximisation and selection. -/

theorem foldl_max_le (es : List SoundAsset) (init : Int) :
    init ≤ es.foldl (fun m a => max m a.priority) init ∧
      ∀ b ∈ es, b.priority ≤ es.foldl (fun m a => max m a.priority) init := by
  induction es generalizing init with
  | nil => simp
  | cons a es ih =>
    simp only [List.foldl_cons]
    have h := ih (max init a.priority)
    refine ⟨le_trans (le_max_left _ _) h.1, ?_⟩
    intro b hb
    rcases List.mem_cons.mp hb with hb | hb
    · subst hb
      exact le_trans (le_max_right _ _) h.1
    · exact h.2 b hb

theorem foldl_max_attained (es : List SoundAsset) (init : Int) :
    es.foldl (fun m a => max m a.priority) init = init ∨
      ∃ b ∈ es, es.foldl (fun m a => max m a.priority) init = b.priority := by
  induction es generalizing init with
  | nil => simp
  | cons a es ih =>
    rcases ih (max init a.priority) with h | ⟨b, hb, h⟩
    · rcases max_choice init a.priority with hm | hm
      · exact Or.inl (h.trans hm)
      · exact Or.inr ⟨a, List.mem_cons_self _ _, h.trans hm⟩
    · exact Or.inr ⟨b, List.mem_cons_of_mem _ hb, h⟩

theorem le_maxPrio (e : SoundAsset) (es : List SoundAsset) :
    ∀ b ∈ e :: es, b.priority ≤ maxPrio e es := by
  intro b hb
  rcases List.mem_cons.mp hb with hb | hb
  · exact hb ▸ (foldl_max_le es e.priority).1
  · exact (foldl_max_le es e.priority).2 b hb

theorem maxPrio_attained (e : SoundAsset) (es : List SoundAsset) :
    ∃ b ∈ e :: es, b.priority = maxPrio e es := by
  rcases foldl_max_attained es e.priority with h | ⟨b, hb, h⟩
  · exact ⟨e, List.mem_cons_self _ _, h.symm⟩
  · exact ⟨b, List.mem_cons_of_mem _ hb, h.symm⟩

theorem topCandidates_ne_nil (e : SoundAsset) (es : List SoundAsset) :
    topCandidates e es ≠ [] := by
  obtain ⟨b, hb, hp⟩ := maxPrio_attained e es
  intro hnil
  have : b ∈ topCandidates e es :=
    List.mem_filter.mpr ⟨hb, by simpa using hp⟩
  rw [hnil] at this
  exact List.not_mem_nil b this

theorem topCandidates_mem {e : SoundAsset} {es : List SoundAsset}
    {a : SoundAsset} (h : a ∈ topCandidates e es) :
    a ∈ e :: es ∧ a.priority = maxPrio e es := by
  have := List.mem_filter.mp h
  exact ⟨this.1, by simpa using this.2⟩

theorem getElem?_mod_of_ne_nil {l : List SoundAsset} (h : l ≠ [])
    (r : Nat) : ∃ a ∈ l, l[r % l.length]? = some a := by
  have hlen : 0 < l.length := List.length_pos.mpr h
  have hlt : r % l.length < l.length := Nat.mod_lt _ hlen
  exact ⟨l[r % l.length], List.getElem_mem hlt,
    List.getElem?_eq_getElem hlt⟩

/-- Key specification of `selectAsset`: a returned asset comes from the
candidate list, is eligible, and has maximal priority among all eligible
candidates. -/
theorem selectAsset_eq_some_spec {cat : Category} {ctx : PlaybackContext}
    {cands : List SoundAsset} {r : Nat} {a : SoundAsset}
    (h : selectAsset cat ctx cands r = some a) :
    a ∈ cands ∧ isEligible ctx a = true ∧
      ∀ b ∈ cands, isEligible ctx b = true → b.priority ≤ a.priority := by
  unfold selectAsset at h
  rcases heq : cands.filter (fun a => isEligible ctx a) with _ | ⟨e, es⟩ <;>
    rw [heq] at h
  · simp at h
  · replace h : (topCandidates e es)[r % (topCandidates e es).length]? = some a := h
    have ha : a ∈ topCandidates e es := by
      have hne := topCandidates_ne_nil e es
      have hlen : 0 < (topCandidates e es).length := List.length_pos.mpr hne
      have hlt : r % (topCandidates e es).length < (topCandidates e es).length :=
        Nat.mod_lt _ hlen
      rw [List.getElem?_eq_getElem hlt] at h
      exact (Option.some.inj h) ▸ List.getElem_mem hlt
    obtain ⟨hmem, hpr⟩ := topCandidates_mem ha
    rw [← heq] at hmem
    have hfil := List.mem_filter.mp hmem
    refine ⟨hfil.1, hfil.2, ?_⟩
    intro b hb hbe
    have hbmem : b ∈ e :: es := by
      rw [← heq]
      exact List.mem_filter.mpr ⟨hb, hbe⟩
    exact hpr ▸ le_maxPrio e es b hbmem

/-- If one candidate is eligible and every eligible candidate equals it,
selection returns it. -/
theorem selectAsset_all_eq {cat : Category} {ctx : PlaybackContext}
    {cands : List SoundAsset} {r : Nat} {u : SoundAsset}
    (hu : u ∈ cands) (hue : isEligible ctx u = true)
    (huniq : ∀ b ∈ cands, isEligible ctx b = true → b = u) :
    selectAsset cat ctx cands r = some u := by
  unfold selectAsset
  rcases heq : cands.filter (fun a => isEligible ctx a) with _ | ⟨e, es⟩
  · exfalso
    have hmem : u ∈ cands.filter (fun a => isEligible ctx a) :=
      List.mem_filter.mpr ⟨hu, hue⟩
    rw [heq] at hmem
    exact List.not_mem_nil u hmem
  · show (topCandidates e es)[r % (topCandidates e es).length]? = some u
    obtain ⟨a, ha, hget⟩ := getElem?_mod_of_ne_nil (topCandidates_ne_nil e es) r
    rw [hget]
    have hae : a ∈ e :: es := (topCandidates_mem ha).1
    rw [← heq] at hae
    have hfil := List.mem_filter.mp hae
    exact congrArg some (huniq a hfil.1 hfil.2)

theorem isEligible_nullConditions (ctx : PlaybackContext) (a : SoundAsset)
    (hact : a.isActive = true) (hc : a.conditions = nullConditions) :
    isEligible ctx a = true := by
  simp [isEligible, hact, hc, nullConditions, durationMaxOk, durationMinOk,
    membershipOk, timeOfDayOk, dayOfWeekOk]

theorem durationMaxOk_iff (ctx : PlaybackContext) (c : Conditions) :
    durationMaxOk ctx c = true ↔
      ∀ m, c.maxDurationSeconds = some m → ctx.durationSeconds ≤ m := by
  cases h : c.maxDurationSeconds <;> simp [durationMaxOk, h]

theorem durationMinOk_iff (ctx : PlaybackContext) (c : Conditions) :
    durationMinOk ctx c = true ↔
      ∀ m, c.minDurationSeconds = some m → m ≤ ctx.durationSeconds := by
  cases h : c.minDurationSeconds <;> simp [durationMinOk, h]

theorem membershipOk_iff (cond : Option (List Int)) (ctxId : Option Int) :
    membershipOk cond ctxId = true ↔
      ∀ l, cond = some l → l ≠ [] → ∃ i, ctxId = some i ∧ i ∈ l := by
  cases cond with
  | none => simp [membershipOk]
  | some l =>
    cases l with
    | nil => simp [membershipOk]
    | cons x xs =>
      cases ctxId with
      | none => simp [membershipOk]
      | some i => simp [membershipOk]

theorem timeOfDayOk_iff (ctx : PlaybackContext) (c : Conditions) :
    timeOfDayOk ctx c = true ↔
      ∀ t, c.timeOfDay = some t → ctx.timeOfDay = t := by
  cases h : c.timeOfDay <;> simp [timeOfDayOk, h]

theorem dayOfWeekOk_iff (ctx : PlaybackContext) (c : Conditions) :
    dayOfWeekOk ctx c = true ↔
      ∀ d, c.dayOfWeek = some d → ctx.dayOfWeek ∈ d := by
  cases h : c.dayOfWeek <;> simp [dayOfWeekOk, h]

theorem membershipOk_normSet (o : Option (List Int)) (i : Option Int) :
    membershipOk (normSet o) i = membershipOk o i := by
  rcases o with _ | (_ | ⟨x, xs⟩) <;> simp [normSet, membershipOk]

theorem isEligible_normAsset (ctx : PlaybackContext) (a : SoundAsset) :
    isEligible ctx (normAsset a) = isEligible ctx a := by
  simp [isEligible, durationMaxOk, durationMinOk, timeOfDayOk, dayOfWeekOk,
    normAsset, normConds, membershipOk_normSet]

theorem filter_map_comm (f : SoundAsset → SoundAsset)
    (p q : SoundAsset → Bool) (l : List SoundAsset)
    (h : ∀ x, q (f x) = p x) :
    (l.map f).filter q = (l.filter p).map f := by
  induction l with
  | nil => rfl
  | cons x xs ih =>
    by_cases hx : p x = true
    · simp [List.filter_cons, h x, hx, ih]
    · simp only [Bool.not_eq_true] at hx
      simp [List.filter_cons, h x, hx, ih]

theorem foldl_max_map_norm (es : List SoundAsset) (init : Int) :
    (es.map normAsset).foldl (fun m a => max m a.priority) init =
      es.foldl (fun m a => max m a.priority) init := by
  induction es generalizing init with
  | nil => rfl
  | cons a es ih => simpa [normAsset] using ih (max init a.priority)

theorem maxPrio_map_norm (e : SoundAsset) (es : List SoundAsset) :
    maxPrio (normAsset e) (es.map normAsset) = maxPrio e es := by
  simp [maxPrio, foldl_max_map_norm, normAsset]

theorem topCandidates_map_norm (e : SoundAsset) (es : List SoundAsset) :
    topCandidates (normAsset e) (es.map normAsset) =
      (topCandidates e es).map normAsset := by
  unfold topCandidates
  rw [show normAsset e :: es.map normAsset = (e :: es).map normAsset from rfl]
  apply filter_map_comm
  intro x
  rw [maxPrio_map_norm]
  rfl

theorem selectAsset_map_norm (cat : Category) (ctx : PlaybackContext)
    (cands : List SoundAsset) (r : Nat) :
    selectAsset cat ctx (cands.map normAsset) r =
      (selectAsset cat ctx cands r).map normAsset := by
  unfold selectAsset
  rw [filter_map_comm normAsset (fun a => isEligible ctx a)
    (fun a => isEligible ctx a) cands (fun x => isEligible_normAsset ctx x)]
  rcases heq : cands.filter (fun a => isEligible ctx a) with _ | ⟨e, es⟩
  · rfl
  · show (topCandidates (normAsset e) (es.map normAsset))[r %
      (topCandidates (normAsset e) (es.map normAsset)).length]? =
      ((topCandidates e es)[r % (topCandidates e es).length]?).map normAsset
    rw [topCandidates_map_norm, List.length_map, List.getElem?_map]

/-! Claim theorems. -/

/-- C1: eligibility is a strict conjunction across condition axes: an asset
is eligible exactly when `isActive` is true and every present condition axis
matches the context (duration within the inclusive bounds when set, the
context id a member of a non-empty membership set, time of day exactly equal
when set, day of week a member when set); an asset with all condition fields
null and `isActive` true is eligible for every context. -/
theorem claim_eligibility_strict_and (ctx : PlaybackContext) (a : SoundAsset) :
    (isEligible ctx a = true ↔
      a.isActive = true ∧
      (∀ m, a.conditions.maxDurationSeconds = some m →
        ctx.durationSeconds ≤ m) ∧
      (∀ m, a.conditions.minDurationSeconds = some m →
        m ≤ ctx.durationSeconds) ∧
      (∀ l, a.conditions.sportIds = some l → l ≠ [] →
        ∃ i, ctx.sportId = some i ∧ i ∈ l) ∧
      (∀ l, a.conditions.leagueIds = some l → l ≠ [] →
        ∃ i, ctx.leagueId = some i ∧ i ∈ l) ∧
      (∀ l, a.conditions.teamIds = some l → l ≠ [] →
        ∃ i, ctx.teamId = some i ∧ i ∈ l) ∧
      (∀ t, a.conditions.timeOfDay = some t → ctx.timeOfDay = t) ∧
      (∀ d, a.conditions.dayOfWeek = some d → ctx.dayOfWeek ∈ d)) ∧
    (a.conditions = nullConditions → a.isActive = true →
      isEligible ctx a = true) := by
  constructor
  · simp only [isEligible, Bool.and_eq_true, durationMaxOk_iff,
      durationMinOk_iff, membershipOk_iff, timeOfDayOk_iff, dayOfWeekOk_iff,
      and_assoc]
  · exact fun hc ha => isEligible_nullConditions ctx a ha hc

/-- C1 witness: the universal fallback asset is eligible under a concrete
context. -/
theorem claim_eligibility_strict_and_witness :
    isEligible ctx0 fallback0 = true :=
  (claim_eligibility_strict_and ctx0 fallback0).2 rfl rfl

/-- C2: a returned asset is an eligible candidate of maximal priority, and a
lower-priority asset is never returned while a strictly higher-priority
eligible asset is in the same candidate list. -/
theorem claim_priority_monotonicity :
    (∀ (cat : Category) (ctx : PlaybackContext) (cands : List SoundAsset)
      (r : Nat) (a : SoundAsset), selectAsset cat ctx cands r = some a →
        a ∈ cands ∧ isEligible ctx a = true ∧
        ∀ b ∈ cands, isEligible ctx b = true → b.priority ≤ a.priority) ∧
    (∀ (cat : Category) (ctx : PlaybackContext) (cands : List SoundAsset)
      (r : Nat) (A B : SoundAsset), A ∈ cands → isEligible ctx A = true →
        B.priority < A.priority → selectAsset cat ctx cands r ≠ some B) := by
  constructor
  · exact fun cat ctx cands r a h => selectAsset_eq_some_spec h
  · intro cat ctx cands r A B hA hAe hlt h
    obtain ⟨-, -, hmax⟩ := selectAsset_eq_some_spec h
    exact absurd (hmax A hA hAe) (not_le.mpr hlt)

/-- C2 witness: a concrete selection call, checked against the theorem. -/
theorem claim_priority_monotonicity_witness :
    fallback0 ∈ [fallback0] ∧ isEligible ctx0 fallback0 = true ∧
      ∀ b ∈ [fallback0], isEligible ctx0 b = true →
        b.priority ≤ fallback0.priority :=
  claim_priority_monotonicity.1 Category.intro ctx0 [fallback0] 0 fallback0
    (by decide)

/-- C3: when the candidate list contains an active all-null-conditions asset
of priority 0 and no other candidate is eligible, `selectAsset` returns that
universal fallback, never the absent value. -/
theorem claim_universal_fallback (cat : Category) (ctx : PlaybackContext)
    (cands : List SoundAsset) (r : Nat) (u : SoundAsset)
    (hu : u ∈ cands) (hact : u.isActive = true)
    (hcond : u.conditions = nullConditions) (_hpr : u.priority = 0)
    (hothers : ∀ b ∈ cands, b ≠ u → isEligible ctx b = false) :
    selectAsset cat ctx cands r = some u := by
  apply selectAsset_all_eq hu (isEligible_nullConditions ctx u hact hcond)
  intro b hb hbe
  by_contra hbu
  rw [hothers b hb hbu] at hbe
  exact Bool.false_ne_true hbe

/-- C3 witness: with one blocked candidate and the universal fallback, the
fallback is selected. -/
theorem claim_universal_fallback_witness :
    selectAsset Category.intro ctx0 [blocked0, fallback0] 7 = some fallback0 :=
  claim_universal_fallback Category.intro ctx0 [blocked0, fallback0] 7
    fallback0 (by decide) rfl rfl rfl (by decide)

/-- C4: an empty candidate list, or one in which every candidate fails the
eligibility filter, yields the absent value; `selectAsset` is a total
function, so this outcome is a normal value, not an exception. -/
theorem claim_empty_no_match (cat : Category) (ctx : PlaybackContext)
    (r : Nat) :
    selectAsset cat ctx [] r = none ∧
      ∀ cands : List SoundAsset,
        (∀ b ∈ cands, isEligible ctx b = false) →
          selectAsset cat ctx cands r = none := by
  refine ⟨rfl, ?_⟩
  intro cands h
  have hfil : cands.filter (fun a => isEligible ctx a) = [] := by
    rw [List.filter_eq_nil_iff]
    intro b hb
    simp [h b hb]
  unfold selectAsset
  rw [hfil]

/-- C4 witness: a concrete fully-filtered-out candidate list yields none. -/
theorem claim_empty_no_match_witness :
    selectAsset Category.intro ctx0 [blocked0] 0 = none :=
  (claim_empty_no_match Category.intro ctx0 0).2 [blocked0] (by decide)

/-- C6: an empty membership set is equivalent to null: replacing an empty
`sportIds`/`leagueIds`/`teamIds` set by null leaves eligibility unchanged,
and normalising every candidate in this way leaves the selection result
unchanged up to the same normalisation. -/
theorem claim_empty_set_null_equiv :
    (∀ (ctx : PlaybackContext) (a : SoundAsset),
      a.conditions.sportIds = some [] →
        isEligible ctx
          { a with conditions := { a.conditions with sportIds := none } } =
          isEligible ctx a) ∧
    (∀ (ctx : PlaybackContext) (a : SoundAsset),
      a.conditions.leagueIds = some [] →
        isEligible ctx
          { a with conditions := { a.conditions with leagueIds := none } } =
          isEligible ctx a) ∧
    (∀ (ctx : PlaybackContext) (a : SoundAsset),
      a.conditions.teamIds = some [] →
        isEligible ctx
          { a with conditions := { a.conditions with teamIds := none } } =
          isEligible ctx a) ∧
    (∀ (cat : Category) (ctx : PlaybackContext) (cands : List SoundAsset)
      (r : Nat),
      selectAsset cat ctx (cands.map normAsset) r =
        (selectAsset cat ctx cands r).map normAsset) := by
  refine ⟨?_, ?_, ?_, selectAsset_map_norm⟩ <;>
    intro ctx a h <;>
    simp [isEligible, durationMaxOk, durationMinOk, timeOfDayOk,
      dayOfWeekOk, membershipOk, h]

/-- C6 witness: replacing the concrete empty sport set by null preserves
eligibility of a concrete asset. -/
theorem claim_empty_set_null_equiv_witness :
    isEligible ctx0
      { emptySets0 with
        conditions := { emptySets0.conditions with sportIds := none } } =
      isEligible ctx0 emptySets0 :=
  claim_empty_set_null_equiv.1 ctx0 emptySets0 rfl

/-- C7: a null context identifier never satisfies a non-null non-empty
membership restriction: such an asset is ineligible and never returned. -/
theorem claim_null_context_restriction :
    (∀ (ctx : PlaybackContext) (a : SoundAsset) (l : List Int),
      ctx.sportId = none → a.conditions.sportIds = some l → l ≠ [] →
        isEligible ctx a = false ∧
        ∀ (cat : Category) (cands : List SoundAsset) (r : Nat),
          selectAsset cat ctx cands r ≠ some a) ∧
    (∀ (ctx : PlaybackContext) (a : SoundAsset) (l : List Int),
      ctx.leagueId = none → a.conditions.leagueIds = some l → l ≠ [] →
        isEligible ctx a = false ∧
        ∀ (cat : Category) (cands : List SoundAsset) (r : Nat),
          selectAsset cat ctx cands r ≠ some a) ∧
    (∀ (ctx : PlaybackContext) (a : SoundAsset) (l : List Int),
      ctx.teamId = none → a.conditions.teamIds = some l → l ≠ [] →
        isEligible ctx a = false ∧
        ∀ (cat : Category) (cands : List SoundAsset) (r : Nat),
          selectAsset cat ctx cands r ≠ some a) := by
  refine ⟨?_, ?_, ?_⟩ <;>
  · intro ctx a l hctx hcond hne
    have hfalse : isEligible ctx a = false := by
      rcases l with _ | ⟨x, xs⟩
      · exact absurd rfl hne
      · simp [isEligible, membershipOk, hctx, hcond]
    refine ⟨hfalse, ?_⟩
    intro cat cands r h
    obtain ⟨-, he, -⟩ := selectAsset_eq_some_spec h
    rw [hfalse] at he
    exact Bool.false_ne_true he

/-- C7 witness: a concrete sport-restricted asset under a concrete
no-sport context is ineligible and not selected. -/
theorem claim_null_context_restriction_witness :
    isEligible ctxNoSport0 blocked0 = false ∧
      selectAsset Category.intro ctxNoSport0 [blocked0] 0 ≠ some blocked0 :=
  ⟨(claim_null_context_restriction.1 ctxNoSport0 blocked0 [2] rfl rfl
      (by decide)).1,
    (claim_null_context_restriction.1 ctxNoSport0 blocked0 [2] rfl rfl
      (by decide)).2 Category.intro [blocked0] 0⟩

/-- C8: the engine is deterministic (equal inputs and equal injected random
values give equal results) and returns only records drawn unmodified from
the input candidate list; in this pure embedding no engine-owned state
exists between calls. -/
theorem claim_pure_deterministic :
    (∀ (cat : Category) (ctx : PlaybackContext) (cands : List SoundAsset)
      (r : Nat) (cat2 : Category) (ctx2 : PlaybackContext)
      (cands2 : List SoundAsset) (r2 : Nat),
      cat = cat2 → ctx = ctx2 → cands = cands2 → r = r2 →
        selectAsset cat ctx cands r = selectAsset cat2 ctx2 cands2 r2) ∧
    (∀ (cat : Category) (ctx : PlaybackContext) (cands : List SoundAsset)
      (r : Nat) (a : SoundAsset),
      selectAsset cat ctx cands r = some a → a ∈ cands) := by
  constructor
  · intro cat ctx cands r cat2 ctx2 cands2 r2 h1 h2 h3 h4
    rw [h1, h2, h3, h4]
  · exact fun cat ctx cands r a h => (selectAsset_eq_some_spec h).1

/-- C8 witness: determinism and result membership at concrete inputs. -/
theorem claim_pure_deterministic_witness :
    selectAsset Category.intro ctx0 [fallback0] 0 =
      selectAsset Category.intro ctx0 [fallback0] 0 ∧
    fallback0 ∈ [fallback0] :=
  ⟨claim_pure_deterministic.1 Category.intro ctx0 [fallback0] 0
      Category.intro ctx0 [fallback0] 0 rfl rfl rfl rfl,
    claim_pure_deterministic.2 Category.intro ctx0 [fallback0] 0 fallback0
      (by decide)⟩

end SoundEngine

namespace Encryption

theorem b64index_b64char : ∀ n < 64, b64index (b64char n) = n := by decide

theorem b64char_ne_pad : ∀ n < 64, b64char n ≠ '=' := by decide

theorem decode_encode_fuel : ∀ (n : Nat) (l : List Nat), l.length ≤ n →
    (∀ x ∈ l, x < 256) → decodeB64 (encodeB64 l) = l := by
  intro n
  induction n with
  | zero =>
    intro l hl _
    rw [List.length_eq_zero.mp (Nat.le_zero.mp hl)]
    rfl
  | succ n ih =>
    intro l hl h
    rcases l with _ | ⟨a, _ | ⟨b, _ | ⟨c, rest⟩⟩⟩
    · rfl
    · have ha : a < 256 := h a (by simp)
      have e1 : b64index (b64char (a / 4)) * 4 +
          b64index (b64char (a % 4 * 16)) / 16 = a := by
        rw [b64index_b64char _ (by omega), b64index_b64char _ (by omega)]
        omega
      simp only [encodeB64, decodeB64]
      rw [if_pos trivial, e1]
    · have ha : a < 256 := h a (by simp)
      have hb : b < 256 := h b (by simp)
      have hc3 : b64char (b % 16 * 4) ≠ '=' := b64char_ne_pad _ (by omega)
      have e1 : b64index (b64char (a / 4)) * 4 +
          b64index (b64char (a % 4 * 16 + b / 16)) / 16 = a := by
        rw [b64index_b64char _ (by omega), b64index_b64char _ (by omega)]
        omega
      have e2 : b64index (b64char (a % 4 * 16 + b / 16)) % 16 * 16 +
          b64index (b64char (b % 16 * 4)) / 4 = b := by
        rw [b64index_b64char _ (by omega), b64index_b64char _ (by omega)]
        omega
      simp only [encodeB64, decodeB64]
      rw [if_neg hc3, if_pos trivial, e1, e2]
    · have ha : a < 256 := h a (by simp)
      have hb : b < 256 := h b (by simp)
      have hc : c < 256 := h c (by simp)
      have hc3 : b64char (b % 16 * 4 + c / 64) ≠ '=' :=
        b64char_ne_pad _ (by omega)
      have hc4 : b64char (c % 64) ≠ '=' := b64char_ne_pad _ (by omega)
      have e1 : b64index (b64char (a / 4)) * 4 +
          b64index (b64char (a % 4 * 16 + b / 16)) / 16 = a := by
        rw [b64index_b64char _ (by omega), b64index_b64char _ (by omega)]
        omega
      have e2 : b64index (b64char (a % 4 * 16 + b / 16)) % 16 * 16 +
          b64index (b64char (b % 16 * 4 + c / 64)) / 4 = b := by
        rw [b64index_b64char _ (by omega), b64index_b64char _ (by omega)]
        omega
      have e3 : b64index (b64char (b % 16 * 4 + c / 64)) % 4 * 64 +
          b64index (b64char (c % 64)) = c := by
        rw [b64index_b64char _ (by omega), b64index_b64char _ (by omega)]
        omega
      have hrest : decodeB64 (encodeB64 rest) = rest := by
        refine ih rest ?_ fun x hx => h x (by simp [hx])
        simp only [List.length_cons] at hl
        omega
      simp only [encodeB64, decodeB64]
      rw [if_neg hc3, if_neg hc4, e1, e2, e3, hrest]

theorem decode_encode (l : List Nat) (h : ∀ x ∈ l, x < 256) :
    decodeB64 (encodeB64 l) = l :=
  decode_encode_fuel l.length l le_rfl h

theorem xorKeyFrom_invol (l : List Nat) :
    ∀ i, xorKeyFrom i (xorKeyFrom i l) = l := by
  induction l with
  | nil => intro i; rfl
  | cons a rest ih =>
    intro i
    simp only [xorKeyFrom]
    rw [Nat.xor_assoc, Nat.xor_self, Nat.xor_zero, ih (i + 1)]

theorem key_getD_lt (j : Nat) :
    ENCRYPTION_KEY.getD (j % ENCRYPTION_KEY.length) 0 < 128 := by
  have hlt : j % ENCRYPTION_KEY.length < 29 :=
    Nat.mod_lt _ (by decide)
  exact (by decide : ∀ m < 29, ENCRYPTION_KEY.getD m 0 < 128) _ hlt

theorem xor_lt_128 {a b : Nat} (ha : a < 128) (hb : b < 128) :
    a ^^^ b < 128 := by
  have h : Nat.bitwise bne a b < 2 ^ 7 :=
    Nat.bitwise_lt (by omega) (by omega)
  have he : a ^^^ b = Nat.bitwise bne a b := rfl
  omega

theorem xorKeyFrom_lt (l : List Nat) (h : ∀ x ∈ l, x < 128) :
    ∀ i, ∀ y ∈ xorKeyFrom i l, y < 256 := by
  induction l with
  | nil =>
    intro i y hy
    simp [xorKeyFrom] at hy
  | cons a rest ih =>
    intro i y hy
    simp only [xorKeyFrom, List.mem_cons] at hy
    rcases hy with rfl | hy
    · have := xor_lt_128 (h a (by simp)) (key_getD_lt i)
      omega
    · exact ih (fun x hx => h x (by simp [hx])) (i + 1) y hy

theorem encodeB64_ne_nil (l : List Nat) (h : l ≠ []) : encodeB64 l ≠ [] := by
  rcases l with _ | ⟨a, _ | ⟨b, _ | ⟨c, rest⟩⟩⟩
  · exact absurd rfl h
  · simp [encodeB64]
  · simp [encodeB64]
  · simp [encodeB64]

theorem xorKey_ne_nil (l : List Nat) (h : l ≠ []) : xorKey l ≠ [] := by
  rcases l with _ | ⟨a, rest⟩
  · exact absurd rfl h
  · simp [xorKey, xorKeyFrom]

/-- C5: the XOR/Base64 cipher round-trips on strings whose code units are
all below 128, and both functions map the empty string to itself. -/
theorem claim_cipher_roundtrip :
    (∀ s : List Nat, (∀ c ∈ s, c < 128) → decrypt (encrypt s) = s) ∧
    encrypt [] = [] ∧ decrypt [] = [] := by
  refine ⟨?_, rfl, rfl⟩
  intro s hs
  by_cases hnil : s = []
  · subst hnil; rfl
  · have henc : encrypt s = encodeB64 (xorKey s) := if_neg hnil
    have hne : encodeB64 (xorKey s) ≠ [] :=
      encodeB64_ne_nil _ (xorKey_ne_nil s hnil)
    rw [henc]
    unfold decrypt
    rw [if_neg hne,
      decode_encode (xorKey s) (fun x hx => xorKeyFrom_lt s hs 0 x hx)]
    exact xorKeyFrom_invol s 0

/-- C5 witness: the cipher round-trips on the concrete code-unit list of
the string hi. -/
theorem claim_cipher_roundtrip_witness :
    decrypt (encrypt [104, 105]) = [104, 105] :=
  claim_cipher_roundtrip.1 [104, 105] (by decide)

end Encryption

namespace Helpers

/-- C10 counterexample: the claim says the text is returned unchanged
exactly when its length is at most `maxLength`, but for the text `...` and
`maxLength = 2` the truncated branch also returns the text unchanged even
though its length 3 exceeds 2. -/
theorem claim_truncateText_cex :
    truncateText ['.', '.', '.'] 2 = ['.', '.', '.'] ∧
      ¬ (((['.', '.', '.'] : List Char).length : Int) ≤ 2) := by
  constructor
  · rfl
  · decide

/-- C10 (amended): `truncateText` returns the text unchanged whenever its
length is at most `maxLength` (but possibly also in the truncated branch);
otherwise it returns the first `max(maxLength - 3, 0)` characters followed
by three dots, a result of length exactly `maxLength` when `maxLength ≥ 3`
and of length 3 (exceeding `maxLength`) when `maxLength < 3`. -/
theorem claim_truncateText_amended :
    (∀ (text : List Char) (maxLength : Int),
      (text.length : Int) ≤ maxLength → truncateText text maxLength = text) ∧
    (∀ (text : List Char) (maxLength : Int),
      ¬ ((text.length : Int) ≤ maxLength) →
        truncateText text maxLength =
          text.take (maxLength - 3).toNat ++ ['.', '.', '.']) ∧
    (∀ (text : List Char) (maxLength : Int), 3 ≤ maxLength →
      ¬ ((text.length : Int) ≤ maxLength) →
        ((truncateText text maxLength).length : Int) = maxLength) ∧
    (∀ (text : List Char) (maxLength : Int), maxLength < 3 →
      ¬ ((text.length : Int) ≤ maxLength) →
        truncateText text maxLength = ['.', '.', '.'] ∧
          maxLength < ((truncateText text maxLength).length : Int)) := by
  refine ⟨?_, ?_, ?_, ?_⟩
  · intro text maxLength h
    simp [truncateText, h]
  · intro text maxLength h
    simp [truncateText, h]
  · intro text maxLength h3 h
    rw [truncateText, if_neg h]
    simp only [List.length_append, List.length_take, List.length_cons,
      List.length_nil]
    push_cast
    omega
  · intro text maxLength h3 h
    have htake : (maxLength - 3).toNat = 0 := by omega
    have heq : truncateText text maxLength = ['.', '.', '.'] := by
      rw [truncateText, if_neg h, htake]
      simp
    refine ⟨heq, ?_⟩
    rw [heq]
    simp
    omega

/-- C10 witness: a five-character text truncated to `maxLength = 4` has
length exactly 4. -/
theorem claim_truncateText_amended_witness :
    ((truncateText ['a', 'b', 'c', 'd', 'e'] 4).length : Int) = 4 :=
  claim_truncateText_amended.2.2.1 ['a', 'b', 'c', 'd', 'e'] 4
    (by decide) (by decide)

end Helpers

namespace IdeasApi

/-- C9 counterexample: the claim says any requested non-completed status
clears `completed_at`, but a requested empty-string status (falsy in JS) is
ignored by the handler: for a completed stored idea the timestamp stays
set. -/
theorem claim_put_completed_cex :
    bodyEmptyStatus0.status = some emptyString ∧
    emptyString ≠ statusCompleted ∧
    completedInv ideaDone0 ∧
    (putUpdate ideaDone0 bodyEmptyStatus0 nowStamp0).completed_at ≠ none := by
  refine ⟨rfl, by decide, by decide, by decide⟩

/-- C9 (amended): the PUT branch preserves the invariant that
`completed_at` is set exactly when the status is `completed`; a transition
into `completed` from a non-completed status stamps `completed_at` with the
current time, a requested non-empty non-completed status clears it, and an
absent or empty status field leaves both status and `completed_at`
unchanged. -/
theorem claim_put_completed_inv :
    (∀ (idea : AppIdea) (body : PutBody) (now : String),
      completedInv idea → completedInv (putUpdate idea body now)) ∧
    (∀ (idea : AppIdea) (body : PutBody) (now : String),
      body.status = some statusCompleted → idea.status ≠ statusCompleted →
        (putUpdate idea body now).completed_at = some now ∧
        (putUpdate idea body now).status = statusCompleted) ∧
    (∀ (idea : AppIdea) (body : PutBody) (now : String) (s : String),
      body.status = some s → s ≠ "" → s ≠ statusCompleted →
        (putUpdate idea body now).completed_at = none ∧
        (putUpdate idea body now).status = s) ∧
    (∀ (idea : AppIdea) (body : PutBody) (now : String),
      body.status = none ∨ body.status = some emptyString →
        (putUpdate idea body now).status = idea.status ∧
        (putUpdate idea body now).completed_at = idea.completed_at) := by
  refine ⟨?_, ?_, ?_, ?_⟩
  · intro idea body now hinv
    simp only [completedInv, statusCompleted] at hinv ⊢
    rcases hs : body.status with _ | s
    · simpa [putUpdate, jsOr, jsTruthy, statusCompleted, hs] using hinv
    · by_cases hsc : s = "completed"
      · subst hsc
        by_cases hic : idea.status = "completed"
        · simpa [putUpdate, jsOr, jsTruthy, statusCompleted, hs, hic]
            using hinv
        · simp [putUpdate, jsOr, jsTruthy, statusCompleted, hs, hic]
      · by_cases hse : s = ""
        · subst hse
          simpa [putUpdate, jsOr, jsTruthy, statusCompleted, hs] using hinv
        · simp [putUpdate, jsOr, jsTruthy, statusCompleted, hs, hsc, hse]
  · intro idea body now hs hic
    simp only [statusCompleted] at hs hic
    constructor <;>
      simp [putUpdate, jsOr, jsTruthy, statusCompleted, hs, hic]
  · intro idea body now s hs hse hsc
    simp only [statusCompleted] at hsc
    constructor <;>
      simp [putUpdate, jsOr, jsTruthy, statusCompleted, hs, hse, hsc]
  · intro idea body now hs
    rcases hs with hs | hs
    · constructor <;> simp [putUpdate, jsOr, jsTruthy, statusCompleted, hs]
    · simp only [emptyString] at hs
      constructor <;> simp [putUpdate, jsOr, jsTruthy, statusCompleted, hs]

/-- C9 witness: completing a concrete pending idea stamps the timestamp and
sets the status. -/
theorem claim_put_completed_inv_witness :
    (putUpdate ideaPending0 bodyComplete0 nowStamp0).completed_at =
        some nowStamp0 ∧
      (putUpdate ideaPending0 bodyComplete0 nowStamp0).status =
        statusCompleted :=
  claim_put_completed_inv.2.1 ideaPending0 bodyComplete0 nowStamp0 rfl
    (by decide)

end IdeasApi
